import Mathlib

/-!
Verification of the jbbly daily phrase-guessing game.

The development shallowly embeds the two source variants of the app:

* `src/src/App.jsx` (the cloud variant): `mulberry32`, `getDailyPhrases`,
  the session state (React `useState` cells) with `handleSubmit`,
  `handleHint`, `handleSkip` and the deferred skip transition
  (`setTimeout` in `handleSkip`), and the score submission (`saveScore`).
* `src/unnamed/part_000` (the local give-up variant): its session state
  with `handleSubmit`, `handleHint` and `handleGiveUp`.

Machine integers are embedded as `Nat` with explicit `% 2^32` where the
JavaScript bitwise operations truncate; JavaScript floats that hold
integer millisecond quantities are embedded as exact rationals (`ℚ`),
adequate below 2^53.  `jsTrim`/`jsToLower` embed the JavaScript
`trim()`/`toLowerCase()` restricted to the ASCII range all compared
strings here use.  React state setters captured inside a
`setTimeout` closure see the values of the render in which the closure
was created; the embedding makes those captured values explicit
(`PendingSkip`).
-/

namespace Jbbly

/-- A phrase of the pool: `{ gibberish, answer, hint? }` (spec §3, and the
`defaultPhrasePool` record shape of `part_000`). -/
structure Phrase where
  gibberish : String
  answer : String
  hint : Option String
deriving DecidableEq, Repr

/-- `2^32`, the modulus of the 32-bit JavaScript bitwise operations. -/
def M32 : Nat := 4294967296

/-- One call of the closure returned by `mulberry32` (App.jsx lines 7-14).
The JavaScript `seed += 0x6D2B79F5` updates the captured seed; all later
operations (`>>>`, `^`, `|`, `Math.imul`) see only its low 32 bits, so the
state is kept reduced mod `2^32`.  The first component is the 32-bit
numerator `r` of the returned float `r / 4294967296`; the second is the
new seed. -/
def mulberry32Step (seed : Nat) : Nat × Nat :=
  let s := (seed + 1831565813) % M32
  let a := ((s ^^^ (s >>> 15)) * (s ||| 1)) % M32
  let b := (a + (((a ^^^ (a >>> 7)) * (a ||| 61)) % M32)) % M32
  let t := a ^^^ b
  (t ^^^ (t >>> 14), s)

/-- Sign of the sort comparator `() => rng() - 0.5` (App.jsx line 29):
`true` when the comparator is `<= 0` (the pair keeps its order), i.e. when
the 32-bit numerator is at most `2^31`.  The float subtraction is exact
here, so only this integer comparison is needed. -/
def randKeep (seed : Nat) : Bool × Nat :=
  let r := mulberry32Step seed
  (decide (r.1 ≤ 2147483648), r.2)

/-- Insert one element into a list, consuming one comparator call per
comparison, as a stable comparison sort driven by `randKeep` does. -/
def rinsert (x : Phrase) : List Phrase → Nat → List Phrase × Nat
  | [], s => ([x], s)
  | y :: ys, s =>
    let c := randKeep s
    if c.1 then (x :: y :: ys, c.2)
    else
      let r := rinsert x ys c.2
      (y :: r.1, r.2)

/-- The deterministic shuffle `[...pool].sort(() => rng() - 0.5)`
(App.jsx line 29).  `Array.prototype.sort` with this inconsistent
comparator produces an implementation-defined but deterministic
permutation of the array; it is embedded as a stable insertion sort
consuming the same `mulberry32` stream.  Every property proved below
(determinism, being a permutation, hence size and distinctness of the
selection) holds for any deterministic comparison sort, so none depends
on which sort the engine uses. -/
def rsort : List Phrase → Nat → List Phrase × Nat
  | [], s => ([], s)
  | x :: xs, s =>
    let r := rsort xs s
    rinsert x r.1 r.2

/-- The fields of the JavaScript `Date` that `getDailyPhrases` reads,
plus the UTC hour, which it does not read: `getUTCMonth()` is 0-based. -/
structure JSDate where
  utcFullYear : Nat
  utcMonth : Nat
  utcDate : Nat
  utcHours : Nat
deriving DecidableEq, Repr

/-- The daily seed `year*10000 + (month+1)*100 + day` (App.jsx lines 21-24). -/
def dailySeed (d : JSDate) : Nat :=
  d.utcFullYear * 10000 + (d.utcMonth + 1) * 100 + d.utcDate

/-- `getDailyPhrases` of App.jsx lines 17-33: empty pool yields `[]`;
otherwise shuffle a copy of the pool with `mulberry32(seed)` and take the
first 5.  The current date is passed explicitly (the source reads
`new Date()`). -/
def getDailyPhrases (pool : List Phrase) (d : JSDate) : List Phrase :=
  if pool.length = 0 then []
  else ((rsort pool (dailySeed d)).1).take 5

/-- The whitespace class `String.prototype.trim` strips, restricted to
the ASCII whitespace characters (all strings compared here are ASCII). -/
def jsSpace (c : Char) : Bool :=
  c = ' ' || c = '\t' || c = '\n' || c = '\r' || c = '\x0b' || c = '\x0c'

/-- JavaScript `trim()`: drop leading and trailing whitespace. -/
def jsTrim (t : String) : String :=
  ⟨((t.data.dropWhile jsSpace).reverse.dropWhile jsSpace).reverse⟩

/-- JavaScript `toLowerCase()` on one character, for the ASCII range the
compared strings use: map `A`-`Z` to `a`-`z`, leave the rest. -/
def jsCharLower (c : Char) : Char :=
  if 'A' ≤ c && c ≤ 'Z' then Char.ofNat (c.toNat + 32) else c

/-- JavaScript `toLowerCase()`, character by character. -/
def jsToLower (t : String) : String := ⟨t.data.map jsCharLower⟩

/-- `computeTotalSeconds` (spec §4.3): the inline expression
`(finish - startTime + penaltyTime + penalty) / 1000` with
`penalty = hintUsed ? 5000 : 0` of App.jsx lines 127-128 (and 180-181).
Rationals model the exact float arithmetic on integer milliseconds. -/
def computeTotalSeconds (finishedAt startedAt penaltyMillis : Nat)
    (hintUsed : Bool) : ℚ :=
  ((finishedAt : ℚ) - (startedAt : ℚ) + (penaltyMillis : ℚ) +
    (if hintUsed then (5000 : ℚ) else 0)) / 1000

/-- `name || "You"` (App.jsx lines 129 and 182): the empty string is the
only falsy string. -/
def submittedName (n : String) : String := if n = "" then "You" else n

/-- The React `useState` cells of the cloud variant `App` (App.jsx lines
36-50) plus `submitted`, the log of `saveScore(name, totalTime)` calls
(the inserts handed to the external leaderboard store). -/
structure GameState where
  dailyPhrases : List Phrase
  currentIndex : Nat
  guess : String
  startTime : Option Nat
  endTime : Option Nat
  finished : Bool
  wrongGuess : Bool
  name : String
  gameStarted : Bool
  hintUsed : Bool
  now : Nat
  revealedAnswer : Option String
  penaltyTime : Nat
  skippedIndexes : List Nat
  submitted : List (String × ℚ)
deriving DecidableEq, Repr

/-- `handleSubmit` (App.jsx lines 119-141).  The comparison is literally
`guess.trim().toLowerCase() === currentPhrase.answer.toLowerCase()`: the
answer is lowercased but not trimmed.  A match on the last phrase sets
`endTime`/`finished` and submits the score; `currentIndex` and `guess`
are left unchanged there.  `null - start` coerces `null` to 0, hence
`getD 0`. -/
def handleSubmit (now : Nat) (s : GameState) : GameState :=
  match s.dailyPhrases[s.currentIndex]? with
  | none => s
  | some p =>
    if jsToLower (jsTrim s.guess) = jsToLower p.answer then
      if s.currentIndex = s.dailyPhrases.length - 1 then
        { s with endTime := some now, finished := true,
                 submitted := s.submitted ++
                   [(submittedName s.name,
                     computeTotalSeconds now (s.startTime.getD 0)
                       s.penaltyTime s.hintUsed)] }
      else
        { s with currentIndex := s.currentIndex + 1, guess := "",
                 revealedAnswer := none }
    else
      { s with wrongGuess := true }

/-- `handleHint` (App.jsx lines 143-156): requires a current phrase, sets
the session-level `hintUsed` flag; the hint text only feeds a toast and
touches no state. -/
def handleHint (s : GameState) : GameState :=
  match s.dailyPhrases[s.currentIndex]? with
  | none => s
  | some _ => { s with hintUsed := true }

/-- The values the `setTimeout` closure of `handleSkip` (App.jsx lines
175-189) captured from the render in which the skip ran: in particular
`penalty` is the `penaltyTime` value from before this skip's
`setPenaltyTime(penaltyTime + 10000)`. -/
structure PendingSkip where
  idx : Nat
  penalty : Nat
  hintUsed : Bool
  startTime : Option Nat
  name : String
deriving DecidableEq, Repr

/-- The synchronous part of `handleSkip` (App.jsx lines 158-173):
requires a current phrase, adds the 10000 ms penalty, records the index,
reveals the answer, and schedules the deferred transition, returning the
captured closure values. -/
def handleSkip (s : GameState) : GameState × Option PendingSkip :=
  match s.dailyPhrases[s.currentIndex]? with
  | none => (s, none)
  | some p =>
    ({ s with penaltyTime := s.penaltyTime + 10000,
              skippedIndexes := s.skippedIndexes ++ [s.currentIndex],
              revealedAnswer := some p.answer },
     some { idx := s.currentIndex, penalty := s.penaltyTime,
            hintUsed := s.hintUsed, startTime := s.startTime,
            name := s.name })

/-- The deferred skip transition (the `setTimeout` body, App.jsx lines
175-189), applied to the state current when the timer fires: reads go to
the captured values `p`, writes (the `set*` calls) to the current state.
When the captured index is the last phrase it finishes and submits a
total computed from the captured (pre-skip) penalty; otherwise it sets
`currentIndex` to the captured index + 1. -/
def fireSkip (now : Nat) (p : PendingSkip) (s : GameState) : GameState :=
  if p.idx = s.dailyPhrases.length - 1 then
    { s with endTime := some now, finished := true,
             submitted := s.submitted ++
               [(submittedName p.name,
                 computeTotalSeconds now (p.startTime.getD 0)
                   p.penalty p.hintUsed)] }
  else
    { s with currentIndex := p.idx + 1, guess := "", revealedAnswer := none }

/-- The Game Over total of App.jsx line 343:
`(endTime - startTime + penaltyTime) / 1000` — no hint penalty. -/
def displayTotal (s : GameState) : ℚ :=
  ((s.endTime.getD 0 : ℚ) - (s.startTime.getD 0 : ℚ) + (s.penaltyTime : ℚ)) / 1000

/-- The discrete events that drive the cloud variant: the user edits
(name, guess), the start button, the clock effect, the ~50 ms interval
tick, the three action buttons, the 500 ms wrong-guess reset timer, and
the firing of a scheduled skip timer. -/
inductive Ev where
  | setName (t : String)
  | startGame
  | startClock (now : Nat)
  | tick (now : Nat)
  | setGuess (t : String)
  | submit (now : Nat)
  | hint
  | skip
  | clearWrong
  | fire (now : Nat) (p : PendingSkip)
deriving DecidableEq, Repr

/-- The events the claims call player actions: `submitGuess`, `useHint`,
`skip` and `tick`.  A scheduled timer firing is not a player action. -/
def Ev.isPlayer : Ev → Bool
  | .submit _ => true
  | .hint => true
  | .skip => true
  | .tick _ => true
  | _ => false

/-- A configuration: the React state plus the multiset of scheduled,
not-yet-fired skip timers. -/
abbrev Config := GameState × List PendingSkip

/-- One event of the cloud variant.  The guards are the conditions under
which App.jsx delivers the event at all: the name input exists only on
the start screen (`!gameStarted`, lines 207-235); the guess input and the
Submit/Hint/Skip buttons exist only on the running game screen
(`gameStarted` and the `!finished` branch of lines 262-331); the
interval ticks only while `gameStarted && !finished` (lines 52-57); the
clock-start effect sets `startTime` once (line 53).  A scheduled skip
timer may fire at any time. -/
inductive Step : Ev → Config → Config → Prop where
  | setName (t : String) (s : GameState) (ps : List PendingSkip) :
      s.gameStarted = false →
      Step (.setName t) (s, ps) ({ s with name := t }, ps)
  | startGame (s : GameState) (ps : List PendingSkip) :
      s.gameStarted = false → jsTrim s.name ≠ "" →
      Step .startGame (s, ps) ({ s with gameStarted := true }, ps)
  | startClock (now : Nat) (s : GameState) (ps : List PendingSkip) :
      s.gameStarted = true → s.startTime = none →
      Step (.startClock now) (s, ps) ({ s with startTime := some now }, ps)
  | tick (now : Nat) (s : GameState) (ps : List PendingSkip) :
      s.gameStarted = true → s.finished = false →
      Step (.tick now) (s, ps) ({ s with now := now }, ps)
  | setGuess (t : String) (s : GameState) (ps : List PendingSkip) :
      s.gameStarted = true → s.finished = false →
      Step (.setGuess t) (s, ps) ({ s with guess := t }, ps)
  | submit (now : Nat) (s : GameState) (ps : List PendingSkip) :
      s.gameStarted = true → s.finished = false →
      Step (.submit now) (s, ps) (handleSubmit now s, ps)
  | hint (s : GameState) (ps : List PendingSkip) :
      s.gameStarted = true → s.finished = false →
      Step .hint (s, ps) (handleHint s, ps)
  | skip (s : GameState) (ps : List PendingSkip) :
      s.gameStarted = true → s.finished = false →
      Step .skip (s, ps) ((handleSkip s).1, ps ++ (handleSkip s).2.toList)
  | clearWrong (s : GameState) (ps : List PendingSkip) :
      Step .clearWrong (s, ps) ({ s with wrongGuess := false }, ps)
  | fire (now : Nat) (p : PendingSkip) (s : GameState)
      (ps1 ps2 : List PendingSkip) :
      Step (.fire now p) (s, ps1 ++ p :: ps2) (fireSkip now p s, ps1 ++ ps2)

/-- Reachability by any sequence of events. -/
def Reach : Config → Config → Prop :=
  Relation.ReflTransGen (fun c c' => ∃ e, Step e c c')

/-- The initial configuration (the `useState` initial values, App.jsx
lines 36-50), with the day's selection and the initial `Date.now()`
sample passed in. -/
def initConfig (ph : List Phrase) (t0 : Nat) : Config :=
  (⟨ph, 0, "", none, none, false, false, "", false, false, t0, none, 0, [], []⟩, [])

/-- The React `useState` cells of the give-up variant (`part_000`, lines
24-40): no penalty/skip cells, but a `giveUp` flag and a local
leaderboard list. -/
structure GS2 where
  dailyPhrases : List Phrase
  currentIndex : Nat
  guess : String
  startTime : Option Nat
  endTime : Option Nat
  finished : Bool
  wrongGuess : Bool
  leaderboard : List (String × ℚ)
  name : String
  gameStarted : Bool
  hintUsed : Bool
  giveUp : Bool
  now : Nat
  revealedAnswer : Option String
deriving DecidableEq, Repr

/-- `[...leaderboard, entry].sort((a, b) => a.time - b.time).slice(0, 10)`
(`part_000` lines 60-64): stable ascending sort by time, keep the best
10. -/
def lbInsert (lb : List (String × ℚ)) (e : String × ℚ) :
    List (String × ℚ) :=
  ((lb ++ [e]).mergeSort (fun a b => decide (a.2 ≤ b.2))).take 10

/-- `handleSubmit` of `part_000` (lines 49-77): same comparison; on the
last phrase it finishes, and inserts into the local leaderboard unless
`giveUp` is set; the total is `(finish - startTime + penalty) / 1000`
with no skip penalty. -/
def handleSubmit2 (now : Nat) (s : GS2) : GS2 :=
  match s.dailyPhrases[s.currentIndex]? with
  | none => s
  | some p =>
    if jsToLower (jsTrim s.guess) = jsToLower p.answer then
      if s.currentIndex = s.dailyPhrases.length - 1 then
        if s.giveUp then
          { s with endTime := some now, finished := true }
        else
          { s with endTime := some now, finished := true,
                   leaderboard := lbInsert s.leaderboard
                     (submittedName s.name,
                      computeTotalSeconds now (s.startTime.getD 0) 0 s.hintUsed) }
      else
        { s with currentIndex := s.currentIndex + 1, guess := "",
                 revealedAnswer := none }
    else
      { s with wrongGuess := true }

/-- `handleHint` of `part_000` (lines 79-86). -/
def handleHint2 (s : GS2) : GS2 :=
  match s.dailyPhrases[s.currentIndex]? with
  | none => s
  | some _ => { s with hintUsed := true }

/-- `handleGiveUp` of `part_000` (lines 88-96): requires a current
phrase; reveals the answer and immediately finishes with `giveUp` set. -/
def handleGiveUp2 (now : Nat) (s : GS2) : GS2 :=
  match s.dailyPhrases[s.currentIndex]? with
  | none => s
  | some p =>
    { s with revealedAnswer := some p.answer, giveUp := true,
             endTime := some now, finished := true }

/-- Events of the give-up variant (no skip, hence no deferred timer
beyond the 500 ms wrong-guess reset). -/
inductive Ev2 where
  | setName (t : String)
  | startGame
  | startClock (now : Nat)
  | tick (now : Nat)
  | setGuess (t : String)
  | submit (now : Nat)
  | hint
  | giveUp (now : Nat)
  | clearWrong
deriving DecidableEq, Repr

/-- One event of the give-up variant; the guards mirror `part_000`'s
rendering (name input only before start, game controls only while
`!finished`, lines 112-140 and 166-218) and its interval effect (lines
42-47). -/
inductive Step2 : Ev2 → GS2 → GS2 → Prop where
  | setName (t : String) (s : GS2) :
      s.gameStarted = false → Step2 (.setName t) s { s with name := t }
  | startGame (s : GS2) :
      s.gameStarted = false → jsTrim s.name ≠ "" →
      Step2 .startGame s { s with gameStarted := true }
  | startClock (now : Nat) (s : GS2) :
      s.gameStarted = true → s.startTime = none →
      Step2 (.startClock now) s { s with startTime := some now }
  | tick (now : Nat) (s : GS2) :
      s.gameStarted = true → s.finished = false →
      Step2 (.tick now) s { s with now := now }
  | setGuess (t : String) (s : GS2) :
      s.gameStarted = true → s.finished = false →
      Step2 (.setGuess t) s { s with guess := t }
  | submit (now : Nat) (s : GS2) :
      s.gameStarted = true → s.finished = false →
      Step2 (.submit now) s (handleSubmit2 now s)
  | hint (s : GS2) :
      s.gameStarted = true → s.finished = false →
      Step2 .hint s (handleHint2 s)
  | giveUp (now : Nat) (s : GS2) :
      s.gameStarted = true → s.finished = false →
      Step2 (.giveUp now) s (handleGiveUp2 now s)
  | clearWrong (s : GS2) :
      Step2 .clearWrong s { s with wrongGuess := false }

/-- A pool whose five entries are the same phrase value. -/
def dupPhrase : Phrase := ⟨"Aye", "a", none⟩

/-- Five copies of `dupPhrase`. -/
def dupPool : List Phrase := List.replicate 5 dupPhrase

/-- A concrete calendar date (2025-10-12 UTC, `getUTCMonth() = 9`). -/
def sampleDate : JSDate := ⟨2025, 9, 12, 0⟩

/-- The same calendar date at a different UTC hour. -/
def sampleDateLater : JSDate := ⟨2025, 9, 12, 17⟩

/-- A pool of six pairwise-distinct phrases. -/
def sixPool : List Phrase :=
  [⟨"g1", "a1", none⟩, ⟨"g2", "a2", none⟩, ⟨"g3", "a3", none⟩,
   ⟨"g4", "a4", none⟩, ⟨"g5", "a5", none⟩, ⟨"g6", "a6", none⟩]

/-- The spec's `normalize` (§4.2): trim, then lowercase. -/
def specNormalize (t : String) : String := jsToLower (jsTrim t)

/-- A single-phrase selection used by several concrete runs. -/
def onePhrase : Phrase := ⟨"Gib", "go", none⟩

/-- A running one-phrase session: game started, clock started at 0,
nothing answered yet. -/
def runBase : GameState :=
  { dailyPhrases := [onePhrase], currentIndex := 0, guess := "",
    startTime := some 0, endTime := none, finished := false,
    wrongGuess := false, name := "P", gameStarted := true,
    hintUsed := false, now := 0, revealedAnswer := none,
    penaltyTime := 0, skippedIndexes := [], submitted := [] }

/-- `runBase` with the hint already used and the correct answer typed:
the spec scenario startedAt 0, hint used, no skips. -/
def hintRun : GameState := { runBase with hintUsed := true, guess := "go" }

/-- C1's failing run, part 1: skip the (last) phrase of `runBase`. -/
def c1AfterSkip : GameState × Option PendingSkip := handleSkip runBase

/-- The closure values that skip captured (penalty 0, the value before
this skip's own 10000). -/
def c1Pending : PendingSkip := ⟨0, 0, false, some 0, "P"⟩

/-- C1's failing run, part 2: the deferred transition fires at 20000 ms. -/
def c1Final : GameState := fireSkip 20000 c1Pending c1AfterSkip.1

/-- C9's run: use the hint, then skip the (last) phrase. -/
def c9AfterSkip : GameState × Option PendingSkip :=
  handleSkip (handleHint runBase)

/-- The closure values of C9's skip: hint used, penalty 0 captured. -/
def c9Pending : PendingSkip := ⟨0, 0, true, some 0, "P"⟩

/-- C9's run after the deferred transition fires at 20000 ms. -/
def c9Final : GameState := fireSkip 20000 c9Pending c9AfterSkip.1

/-- A phrase whose stored answer has a leading space. -/
def paddedPhrase : Phrase := ⟨"Ay", " a", none⟩

/-- A session at `paddedPhrase` with the guess `"a"` typed. -/
def paddedRun : GameState :=
  { runBase with dailyPhrases := [paddedPhrase], guess := "a" }

/-- A session at the phrase whose answer is the spec's matching example,
with the example guess (extra whitespace, different case) typed. -/
def lovePhrase : Phrase := ⟨"Eye Mull of Mush Sheen", "I'm a love machine", some "Song lyric"⟩

/-- See `lovePhrase`. -/
def loveRun : GameState :=
  { runBase with dailyPhrases := [lovePhrase], guess := " i'm a LOVE machine " }

/-- A state with the hint flag already set, for the C8 witness. -/
def hintedState : GameState := { runBase with hintUsed := true }

/-- C5's witness state: a finished one-phrase session. -/
def doneState : GameState :=
  { runBase with finished := true, endTime := some 20000,
                 guess := "go", submitted := [("P", 20)] }

/-- C5's witness state for the give-up variant: a finished (gave-up)
session of `part_000`. -/
def doneState2 : GS2 :=
  { dailyPhrases := [onePhrase], currentIndex := 0, guess := "",
    startTime := some 0, endTime := some 9000, finished := true,
    wrongGuess := true, leaderboard := [], name := "P",
    gameStarted := true, hintUsed := false, giveUp := true, now := 0,
    revealedAnswer := some "go" }

/-- C5's counterexample run: in the one-phrase session, skip, then type
and submit the correct answer at 20000 ms (which finishes and submits),
while the skip timer is still pending. -/
def c5Finished : GameState :=
  handleSubmit 20000 { (handleSkip runBase).1 with guess := "go" }

/-- C5's counterexample run after the pending skip timer fires at
25000 ms, past the `Finished` transition. -/
def c5Refired : GameState := fireSkip 25000 c1Pending c5Finished

/-- A three-phrase selection for C10's counterexample run. -/
def threePool : List Phrase :=
  [⟨"g0", "a0", none⟩, ⟨"g1", "a1", none⟩, ⟨"g2", "a2", none⟩]

/-- C10's counterexample run: skip phrase 0, then answer phrases 0 and 1
correctly before the skip timer fires; `currentIndex` is 2. -/
def c10BeforeFire : GameState :=
  handleSubmit 2
    { handleSubmit 1
        { (handleSkip
            { runBase with dailyPhrases := threePool }).1 with guess := "a0" }
        with guess := "a1" }

/-- The closure values of C10's skip (index 0 captured). -/
def c10Pending : PendingSkip := ⟨0, 0, false, some 0, "P"⟩

/-- C10's run after the pending skip timer fires at 3 ms: the deferred
advance writes the captured index + 1. -/
def c10AfterFire : GameState := fireSkip 3 c10Pending c10BeforeFire

open List in
theorem rinsert_perm (x : Phrase) (l : List Phrase) (s : Nat) :
    (rinsert x l s).1 ~ x :: l := by
  induction l generalizing s with
  | nil => simp [rinsert]
  | cons y ys ih =>
    simp only [rinsert]
    by_cases h : (randKeep s).1
    · simp [h]
    · simp only [h, if_false]
      exact ((ih _).cons y).trans (List.Perm.swap x y ys)

open List in
theorem rsort_perm (l : List Phrase) (s : Nat) : (rsort l s).1 ~ l := by
  induction l generalizing s with
  | nil => simp [rsort]
  | cons x xs ih =>
    simpa [rsort] using (rinsert_perm x _ _).trans ((ih s).cons x)

/-- C2, counterexample: the claim quantifies over every pool of size at
least 5, but when the pool itself holds duplicate phrase values the
shuffle-and-take selection repeats them: on five copies of one phrase the
selection has length 5 and is not duplicate-free. -/
theorem C2_dup_pool_counterexample :
    dupPool.length = 5 ∧ (getDailyPhrases dupPool sampleDate).length = 5 ∧
      ¬ (getDailyPhrases dupPool sampleDate).Nodup := by
  refine ⟨by decide, by decide, by decide⟩

/-- C2, amended: for every pool of size at least 5 and every date, the
selection has exactly 5 phrases, is drawn at distinct pool positions
(it is a sub-permutation of the pool, so no phrase is selected more often
than the pool holds it), and is duplicate-free whenever the pool's
phrases are pairwise distinct. -/
theorem C2_selectDaily_five_distinct (pool : List Phrase) (d : JSDate)
    (hlen : 5 ≤ pool.length) :
    (getDailyPhrases pool d).length = 5 ∧
      List.Subperm (getDailyPhrases pool d) pool ∧
      (pool.Nodup → (getDailyPhrases pool d).Nodup) := by
  have hne : ¬ pool.length = 0 := by omega
  have hperm := rsort_perm pool (dailySeed d)
  have hsub : List.Sublist (((rsort pool (dailySeed d)).1).take 5)
      ((rsort pool (dailySeed d)).1) := List.take_sublist 5 _
  refine ⟨?_, ?_, ?_⟩
  · simp only [getDailyPhrases, hne, if_false]
    have := hperm.length_eq
    simp [List.length_take, this]
    omega
  · simp only [getDailyPhrases, hne, if_false]
    exact hsub.subperm.trans hperm.subperm
  · intro hnd
    simp only [getDailyPhrases, hne, if_false]
    exact (hperm.nodup_iff.mpr hnd).sublist hsub

/-- C2, witness: on a concrete duplicate-free pool of six phrases the
amended theorem yields a 5-element duplicate-free sub-permutation. -/
theorem C2_selectDaily_five_distinct_witness :
    (getDailyPhrases sixPool sampleDate).length = 5 ∧
      List.Subperm (getDailyPhrases sixPool sampleDate) sixPool ∧
      (getDailyPhrases sixPool sampleDate).Nodup := by
  have h := C2_selectDaily_five_distinct sixPool sampleDate (by decide)
  exact ⟨h.1, h.2.1, h.2.2 (by decide)⟩

/-- C6: `getDailyPhrases` is deterministic — its output depends only on
the pool and the UTC calendar date (not, e.g., on the time of day), so
two invocations with identical pool and date give identical ordered
output. -/
theorem C6_selectDaily_deterministic (pool : List Phrase) (d1 d2 : JSDate)
    (hy : d1.utcFullYear = d2.utcFullYear) (hm : d1.utcMonth = d2.utcMonth)
    (hd : d1.utcDate = d2.utcDate) :
    getDailyPhrases pool d1 = getDailyPhrases pool d2 := by
  have hs : dailySeed d1 = dailySeed d2 := by
    simp [dailySeed, hy, hm, hd]
  simp [getDailyPhrases, hs]

/-- C6, witness: two invocations on the same UTC day (hours 0 and 17)
give the same selection for the concrete six-phrase pool. -/
theorem C6_selectDaily_deterministic_witness :
    getDailyPhrases sixPool sampleDate = getDailyPhrases sixPool sampleDateLater :=
  C6_selectDaily_deterministic sixPool sampleDate sampleDateLater rfl rfl rfl

theorem handleSubmit_finish_eq (now : Nat) (s : GameState) (p : Phrase)
    (hp : s.dailyPhrases[s.currentIndex]? = some p)
    (hm : jsToLower (jsTrim s.guess) = jsToLower p.answer)
    (hl : s.currentIndex = s.dailyPhrases.length - 1) :
    handleSubmit now s =
      { s with endTime := some now, finished := true,
               submitted := s.submitted ++
                 [(submittedName s.name,
                   computeTotalSeconds now (s.startTime.getD 0)
                     s.penaltyTime s.hintUsed)] } := by
  unfold handleSubmit
  simp only [hp]
  rw [if_pos hm, if_pos hl]

theorem handleSubmit_advance_eq (now : Nat) (s : GameState) (p : Phrase)
    (hp : s.dailyPhrases[s.currentIndex]? = some p)
    (hm : jsToLower (jsTrim s.guess) = jsToLower p.answer)
    (hl : ¬ s.currentIndex = s.dailyPhrases.length - 1) :
    handleSubmit now s =
      { s with currentIndex := s.currentIndex + 1, guess := "",
               revealedAnswer := none } := by
  unfold handleSubmit
  simp only [hp]
  rw [if_pos hm, if_neg hl]

theorem handleSubmit_wrong_eq (now : Nat) (s : GameState) (p : Phrase)
    (hp : s.dailyPhrases[s.currentIndex]? = some p)
    (hm : ¬ jsToLower (jsTrim s.guess) = jsToLower p.answer) :
    handleSubmit now s = { s with wrongGuess := true } := by
  unfold handleSubmit
  simp only [hp]
  rw [if_neg hm]

/-- C3, counterexample: the claim quantifies over every finished
session, but a session finished through the deferred skip transition
violates the formula.  Concretely (the same run as C1's failing input):
skip the only phrase, the timer fires at 20000 ms — the session is
finished with `startedAt = 0`, `finishedAt = 20000`,
`penaltyMillis = 10000`, no hint, so the claimed formula gives
`(20000 - 0 + 10000 + 0) / 1000 = 30` seconds, yet the computed and
submitted total is 20 seconds (the stale pre-skip penalty was used). -/
theorem C3_skip_finish_counterexample :
    c1Final.finished = true ∧ c1Final.startTime = some 0 ∧
      c1Final.endTime = some 20000 ∧ c1Final.penaltyTime = 10000 ∧
      c1Final.hintUsed = false ∧
      c1Final.submitted = [("P", 20)] ∧
      computeTotalSeconds 20000 0 10000 false = 30 ∧
      ¬ ((20 : ℚ) = 30) := by
  have hsub : c1Final.submitted = [("P", computeTotalSeconds 20000 0 0 false)] := rfl
  have hval : computeTotalSeconds 20000 0 0 false = 20 := by
    norm_num [computeTotalSeconds]
  refine ⟨by decide, by decide, by decide, by decide, by decide, ?_,
    by norm_num [computeTotalSeconds], by norm_num⟩
  rw [hsub, hval]

/-- C3, amended: for every session finished through a correct guess on
the last phrase, the score handed to the leaderboard is
`(finishedAt - startedAt + penaltyMillis + (hintUsed ? 5000 : 0)) / 1000`
seconds; `computeTotalSeconds` is non-negative whenever
`startedAt ≤ finishedAt`; and the spec scenario `startedAt = 0`,
`finishedAt = 10000`, hint used, no skips gives 15 seconds.  (Sessions
finished through the deferred skip transition instead submit a total
computed from the stale pre-skip penalty — the C3 counterexample and
C1's code bug.) -/
theorem C3_total_time_formula (s : GameState) (now : Nat) (p : Phrase)
    (hp : s.dailyPhrases[s.currentIndex]? = some p)
    (hm : jsToLower (jsTrim s.guess) = jsToLower p.answer)
    (hl : s.currentIndex = s.dailyPhrases.length - 1) :
    (handleSubmit now s).finished = true ∧
      (handleSubmit now s).submitted = s.submitted ++
        [(submittedName s.name,
          ((now : ℚ) - (s.startTime.getD 0 : ℚ) + (s.penaltyTime : ℚ) +
            (if s.hintUsed then (5000 : ℚ) else 0)) / 1000)] ∧
      (∀ (f st pm : Nat) (h : Bool), st ≤ f →
        0 ≤ computeTotalSeconds f st pm h) ∧
      computeTotalSeconds 10000 0 0 true = 15 := by
  have hred := handleSubmit_finish_eq now s p hp hm hl
  refine ⟨?_, ?_, ?_, ?_⟩
  · rw [hred]
  · rw [hred]
    simp [computeTotalSeconds]
  · intro f st pm h hle
    have hc : (st : ℚ) ≤ (f : ℚ) := by exact_mod_cast hle
    have hpm : (0 : ℚ) ≤ (pm : ℚ) := by positivity
    unfold computeTotalSeconds
    cases h <;> simp <;> linarith
  · norm_num [computeTotalSeconds]

/-- C3, witness: the hint scenario run concretely (one phrase, hint used,
correct guess submitted at 10000 ms) submits 15 seconds. -/
theorem C3_total_time_formula_witness :
    (handleSubmit 10000 hintRun).finished = true ∧
      (handleSubmit 10000 hintRun).submitted = hintRun.submitted ++
        [(submittedName hintRun.name,
          ((10000 : ℚ) - (hintRun.startTime.getD 0 : ℚ) +
            (hintRun.penaltyTime : ℚ) +
            (if hintRun.hintUsed then (5000 : ℚ) else 0)) / 1000)] ∧
      (∀ (f st pm : Nat) (h : Bool), st ≤ f →
        0 ≤ computeTotalSeconds f st pm h) ∧
      computeTotalSeconds 10000 0 0 true = 15 :=
  C3_total_time_formula hintRun 10000 onePhrase (by decide) (by decide) (by decide)

/-- C4, counterexample: the claim says matching normalizes (trim +
lowercase) both sides, but the code trims only the guess
(`guess.trim().toLowerCase() === currentPhrase.answer.toLowerCase()`).
With stored answer `" a"` and guess `"a"` both normalize to `"a"`, yet
the code rejects the guess: the submit marks a wrong guess and neither
advances nor finishes. -/
theorem C4_trim_counterexample :
    specNormalize "a" = specNormalize " a" ∧
      (handleSubmit 5 paddedRun).wrongGuess = true ∧
      (handleSubmit 5 paddedRun).finished = false ∧
      (handleSubmit 5 paddedRun).currentIndex = 0 := by
  refine ⟨by decide, by decide, by decide, by decide⟩

/-- C4, amended: a guess matches if and only if `normalize(text)` (trim +
lowercase) equals the merely lowercased — not trimmed — answer; on a
match the submit advances or finishes without flagging a wrong guess,
otherwise it only sets the wrong-guess flag.  The claim's example still
matches: `" i'm a LOVE machine "` against answer `"I'm a love machine"`. -/
theorem C4_match_amended (s : GameState) (now : Nat) (p : Phrase)
    (hp : s.dailyPhrases[s.currentIndex]? = some p) :
    (specNormalize s.guess = jsToLower p.answer →
      (handleSubmit now s).wrongGuess = s.wrongGuess ∧
        ((handleSubmit now s).finished = true ∨
          (handleSubmit now s).currentIndex = s.currentIndex + 1)) ∧
      (specNormalize s.guess ≠ jsToLower p.answer →
        handleSubmit now s = { s with wrongGuess := true }) ∧
      specNormalize loveRun.guess = jsToLower lovePhrase.answer := by
  refine ⟨?_, ?_, by decide⟩
  · intro hm0
    have hm : jsToLower (jsTrim s.guess) = jsToLower p.answer := hm0
    by_cases hl : s.currentIndex = s.dailyPhrases.length - 1
    · rw [handleSubmit_finish_eq now s p hp hm hl]
      exact ⟨rfl, Or.inl rfl⟩
    · rw [handleSubmit_advance_eq now s p hp hm hl]
      exact ⟨rfl, Or.inr rfl⟩
  · intro hm0
    exact handleSubmit_wrong_eq now s p hp hm0

/-- C4, witness: the example guess matches and the one-phrase session
finishes on submit. -/
theorem C4_match_amended_witness :
    (handleSubmit 9 loveRun).wrongGuess = loveRun.wrongGuess ∧
      ((handleSubmit 9 loveRun).finished = true ∨
        (handleSubmit 9 loveRun).currentIndex = loveRun.currentIndex + 1) :=
  (C4_match_amended loveRun 9 lovePhrase (by decide)).1 (by decide)

/-- C8: `useHint` is idempotent — a second call leaves the state of the
first call unchanged, a call on a state whose flag is already set (e.g.
a hint on a later phrase) changes nothing, and the flag's entire scoring
contribution is one flat 5000 ms (5 seconds), however often the hint was
requested. -/
theorem C8_useHint_idempotent :
    (∀ s : GameState, handleHint (handleHint s) = handleHint s) ∧
      (∀ s : GameState, s.hintUsed = true → handleHint s = s) ∧
      (∀ f st pm : Nat,
        computeTotalSeconds f st pm true = computeTotalSeconds f st pm false + 5) := by
  refine ⟨?_, ?_, ?_⟩
  · intro s
    unfold handleHint
    cases h : s.dailyPhrases[s.currentIndex]? <;> simp [h]
  · intro s hs
    unfold handleHint
    cases h : s.dailyPhrases[s.currentIndex]? <;> simp [h]
    cases s
    simp_all
  · intro f st pm
    simp [computeTotalSeconds]
    ring

/-- C8, witness: concretely, two hints equal one hint, a hint on an
already-hinted state is the identity, and the hint adds exactly 5
seconds to the example total. -/
theorem C8_useHint_idempotent_witness :
    handleHint (handleHint runBase) = handleHint runBase ∧
      handleHint hintedState = hintedState ∧
      computeTotalSeconds 10000 0 0 true = computeTotalSeconds 10000 0 0 false + 5 :=
  ⟨C8_useHint_idempotent.1 runBase, C8_useHint_idempotent.2.1 hintedState rfl,
    C8_useHint_idempotent.2.2 10000 0 0⟩

/-- C9, counterexample: the claim's clause "with a hint the displayed
total is exactly 5 s less than the submitted total" fails when the
session finishes through skipping the last phrase: with a hint used, the
deferred skip submission uses the penalty captured before the skip
(stale closure), so the Game Over screen shows 30 s while 25 s was
submitted — 5 s more, not less. -/
theorem C9_display_counterexample :
    c9Final.finished = true ∧ c9Final.hintUsed = true ∧
      displayTotal c9Final = 30 ∧ c9Final.submitted = [("P", 25)] ∧
      ¬ displayTotal c9Final = 25 - 5 := by
  have hend : c9Final.endTime = some 20000 := by decide
  have hstart : c9Final.startTime = some 0 := by decide
  have hpen : c9Final.penaltyTime = 10000 := by decide
  have hsub : c9Final.submitted = [("P", computeTotalSeconds 20000 0 0 true)] := rfl
  have hval : computeTotalSeconds 20000 0 0 true = 25 := by
    norm_num [computeTotalSeconds]
  have hdisp : displayTotal c9Final = 30 := by
    rw [displayTotal, hend, hstart, hpen]
    norm_num
  refine ⟨by decide, by decide, hdisp, ?_, ?_⟩
  · rw [hsub, hval]
  · rw [hdisp]
    norm_num

/-- C9, amended: the Game Over screen always shows
`(finishedAt - startedAt + penaltyMillis) / 1000`, omitting the hint
penalty; when the session finishes through a correct final guess with the
hint used, that displayed total is exactly 5 seconds less than the total
submitted to the leaderboard (for skip-finishes the submitted total
instead uses the stale pre-skip penalty, see C9's counterexample). -/
theorem C9_display_omits_hint (s : GameState) (now : Nat) (p : Phrase)
    (hp : s.dailyPhrases[s.currentIndex]? = some p)
    (hm : jsToLower (jsTrim s.guess) = jsToLower p.answer)
    (hl : s.currentIndex = s.dailyPhrases.length - 1)
    (hh : s.hintUsed = true) :
    displayTotal (handleSubmit now s) =
        computeTotalSeconds now (s.startTime.getD 0) s.penaltyTime true - 5 ∧
      (handleSubmit now s).submitted = s.submitted ++
        [(submittedName s.name,
          computeTotalSeconds now (s.startTime.getD 0) s.penaltyTime true)] := by
  rw [handleSubmit_finish_eq now s p hp hm hl, hh]
  constructor
  · simp [displayTotal, computeTotalSeconds]
    ring
  · rfl

/-- C9, witness: the hint scenario finishes by a correct guess at
10000 ms; 15 s is submitted while the Game Over screen shows 10 s. -/
theorem C9_display_omits_hint_witness :
    displayTotal (handleSubmit 10000 hintRun) =
        computeTotalSeconds 10000 (hintRun.startTime.getD 0)
          hintRun.penaltyTime true - 5 ∧
      (handleSubmit 10000 hintRun).submitted = hintRun.submitted ++
        [(submittedName hintRun.name,
          computeTotalSeconds 10000 (hintRun.startTime.getD 0)
            hintRun.penaltyTime true)] :=
  C9_display_omits_hint hintRun 10000 onePhrase (by decide) (by decide)
    (by decide) (by decide)

/-- C1, evaluation at the failing input: skipping the last phrase does
add 10000 ms to `penaltyMillis` and record the index, and the deferred
transition does finish the session — but the submitted total is computed
from the `penaltyTime` captured before the skip, so the skip's own
10000 ms is missing from it: with `startedAt = 0` and the timer firing at
20000 ms the code submits 20 s where the claim (and the Game Over screen,
which shows 30 s) require `(20000 + 10000) / 1000 = 30` s. -/
theorem C1_skip_last_penalty_dropped :
    c1AfterSkip.1.penaltyTime = 10000 ∧
      c1AfterSkip.1.skippedIndexes = [0] ∧
      c1AfterSkip.2 = some c1Pending ∧
      c1Final.finished = true ∧ c1Final.penaltyTime = 10000 ∧
      c1Final.submitted = [("P", 20)] ∧
      displayTotal c1Final = 30 ∧
      ((20000 : ℚ) + 10000) / 1000 = 30 ∧
      ¬ c1Final.submitted = [("P", 30)] := by
  have hend : c1Final.endTime = some 20000 := by decide
  have hstart : c1Final.startTime = some 0 := by decide
  have hpen : c1Final.penaltyTime = 10000 := by decide
  have hsub : c1Final.submitted = [("P", computeTotalSeconds 20000 0 0 false)] := rfl
  have hval : computeTotalSeconds 20000 0 0 false = 20 := by
    norm_num [computeTotalSeconds]
  have hdisp : displayTotal c1Final = 30 := by
    rw [displayTotal, hend, hstart, hpen]
    norm_num
  refine ⟨by decide, by decide, by decide, by decide, hpen, ?_, hdisp,
    by norm_num, ?_⟩
  · rw [hsub, hval]
  · rw [hsub, hval]
    intro h
    simp at h

/-- C5, counterexample: `finishedAt` can change after the session is
`Finished`.  One-phrase session: the player skips (scheduling the 2 s
deferred transition), then types and submits the correct answer at
20000 ms — the session finishes with `endTime = 20000` and one submitted
score.  The still-pending skip timer then fires at 25000 ms: its captured
index is the last phrase, so it overwrites `endTime` with 25000 and
submits a second score. -/
theorem C5_terminal_counterexample :
    Reach (initConfig [onePhrase] 0) (c5Finished, [c1Pending]) ∧
      c5Finished.finished = true ∧ c5Finished.endTime = some 20000 ∧
      Step (.fire 25000 c1Pending) (c5Finished, [c1Pending]) (c5Refired, []) ∧
      c5Refired.finished = true ∧ c5Refired.endTime = some 25000 ∧
      c5Refired.submitted.length = 2 := by
  refine ⟨?_, by decide, by decide, ?_, by decide, by decide, by decide⟩
  · exact Relation.ReflTransGen.head ⟨_, Step.setName "P" _ _ rfl⟩
      (Relation.ReflTransGen.head ⟨_, Step.startGame _ _ rfl (by decide)⟩
        (Relation.ReflTransGen.head ⟨_, Step.startClock 0 _ _ rfl rfl⟩
          (Relation.ReflTransGen.head ⟨_, Step.skip _ _ rfl rfl⟩
            (Relation.ReflTransGen.head ⟨_, Step.setGuess "go" _ _ (by decide) (by decide)⟩
              (Relation.ReflTransGen.head ⟨_, Step.submit 20000 _ _ (by decide) (by decide)⟩
                Relation.ReflTransGen.refl)))))
  · exact Step.fire 25000 c1Pending c5Finished [] []

/-- C5, amended: in the cloud variant, once `finished` is set no player
action (submitGuess, useHint, skip, tick — nor any guess edit) can even
be delivered, and every event that can still occur (a pending skip timer
firing, the wrong-guess reset, the one-shot clock effect) keeps the
session `Finished` and preserves `penaltyMillis`; a pending skip timer
may however still overwrite `finishedAt`/`currentIndex` and re-submit
(see the counterexample).  In the give-up variant, which has no deferred
skip timer, the terminal state is fully frozen: every deliverable event
preserves `finished`, `finishedAt`, `currentIndex` and the `giveUp`
outcome. -/
theorem C5_terminal_amended :
    (∀ (e : Ev) (c c' : Config), Step e c c' → c.1.finished = true →
      c'.1.finished = true ∧ c'.1.penaltyTime = c.1.penaltyTime ∧
        e.isPlayer = false) ∧
    (∀ (e : Ev2) (s s' : GS2), Step2 e s s' → s.finished = true →
      s'.finished = s.finished ∧ s'.endTime = s.endTime ∧
        s'.currentIndex = s.currentIndex ∧ s'.giveUp = s.giveUp) := by
  constructor
  · intro e c c' hstep hfin
    cases hstep with
    | setName t s ps h1 => exact ⟨hfin, rfl, rfl⟩
    | startGame s ps h1 h2 => exact ⟨hfin, rfl, rfl⟩
    | startClock now s ps h1 h2 => exact ⟨hfin, rfl, rfl⟩
    | tick now s ps h1 h2 => rw [hfin] at h2; cases h2
    | setGuess t s ps h1 h2 => rw [hfin] at h2; cases h2
    | submit now s ps h1 h2 => rw [hfin] at h2; cases h2
    | hint s ps h1 h2 => rw [hfin] at h2; cases h2
    | skip s ps h1 h2 => rw [hfin] at h2; cases h2
    | clearWrong s ps => exact ⟨hfin, rfl, rfl⟩
    | fire now p s ps1 ps2 =>
      refine ⟨?_, ?_, rfl⟩ <;> unfold fireSkip <;> split <;> simp_all
  · intro e s s' hstep hfin
    cases hstep with
    | setName t s h1 => exact ⟨rfl, rfl, rfl, rfl⟩
    | startGame s h1 h2 => exact ⟨rfl, rfl, rfl, rfl⟩
    | startClock now s h1 h2 => exact ⟨rfl, rfl, rfl, rfl⟩
    | tick now s h1 h2 => rw [hfin] at h2; cases h2
    | setGuess t s h1 h2 => rw [hfin] at h2; cases h2
    | submit now s h1 h2 => rw [hfin] at h2; cases h2
    | hint s h1 h2 => rw [hfin] at h2; cases h2
    | giveUp now s h1 h2 => rw [hfin] at h2; cases h2
    | clearWrong s => exact ⟨rfl, rfl, rfl, rfl⟩

/-- C5, witness: on a concrete finished cloud-variant session a pending
skip timer firing keeps it finished, preserves the penalty, and is not a
player action; on a concrete gave-up session of the give-up variant the
wrong-guess reset preserves all four progress fields. -/
theorem C5_terminal_amended_witness :
    ((fireSkip 25000 c1Pending doneState).finished = true ∧
      (fireSkip 25000 c1Pending doneState).penaltyTime = doneState.penaltyTime ∧
      (Ev.fire 25000 c1Pending).isPlayer = false) ∧
    (({ doneState2 with wrongGuess := false }).finished = doneState2.finished ∧
      ({ doneState2 with wrongGuess := false }).endTime = doneState2.endTime ∧
      ({ doneState2 with wrongGuess := false }).currentIndex = doneState2.currentIndex ∧
      ({ doneState2 with wrongGuess := false }).giveUp = doneState2.giveUp) :=
  ⟨C5_terminal_amended.1 _ (doneState, [c1Pending])
      (fireSkip 25000 c1Pending doneState, [])
      (Step.fire 25000 c1Pending doneState [] []) rfl,
    C5_terminal_amended.2 _ doneState2 _ (Step2.clearWrong doneState2) rfl⟩

theorem empty_pool_invariant (t0 : Nat) (c : Config)
    (h : Reach (initConfig [] t0) c) :
    c.1.dailyPhrases = [] ∧ c.1.finished = false ∧ c.2 = [] := by
  induction h with
  | refl => exact ⟨rfl, rfl, rfl⟩
  | tail hr hstep ih =>
    obtain ⟨e, hs⟩ := hstep
    obtain ⟨hph, hfin, hps⟩ := ih
    cases hs with
    | setName t s ps h1 => exact ⟨hph, hfin, hps⟩
    | startGame s ps h1 h2 => exact ⟨hph, hfin, hps⟩
    | startClock now s ps h1 h2 => exact ⟨hph, hfin, hps⟩
    | tick now s ps h1 h2 => exact ⟨hph, hfin, hps⟩
    | setGuess t s ps h1 h2 => exact ⟨hph, hfin, hps⟩
    | submit now s ps h1 h2 =>
      have hnone : s.dailyPhrases[s.currentIndex]? = none := by
        have : s.dailyPhrases = [] := hph
        rw [this]
        simp
      have hid : handleSubmit now s = s := by
        unfold handleSubmit
        rw [hnone]
      rw [hid]
      exact ⟨hph, hfin, hps⟩
    | hint s ps h1 h2 =>
      have hnone : s.dailyPhrases[s.currentIndex]? = none := by
        have : s.dailyPhrases = [] := hph
        rw [this]
        simp
      have hid : handleHint s = s := by
        unfold handleHint
        rw [hnone]
      rw [hid]
      exact ⟨hph, hfin, hps⟩
    | skip s ps h1 h2 =>
      have hnone : s.dailyPhrases[s.currentIndex]? = none := by
        have : s.dailyPhrases = [] := hph
        rw [this]
        simp
      have hid : handleSkip s = (s, none) := by
        unfold handleSkip
        rw [hnone]
      rw [hid]
      refine ⟨hph, hfin, ?_⟩
      have : ps = [] := hps
      rw [this]
      rfl
    | clearWrong s ps => exact ⟨hph, hfin, hps⟩
    | fire now p s ps1 ps2 =>
      have : ps1 ++ p :: ps2 = [] := hps
      simp at this

/-- C7: with an empty phrase pool, `getDailyPhrases` returns the empty
selection without error, and in every reachable configuration of such a
session `submitGuess`, `useHint` and `skip` are no-ops (the current
phrase guard fails closed, skip schedules nothing) and the session is
never `Finished`. -/
theorem C7_empty_pool (d : JSDate) (t0 : Nat) (c : Config)
    (h : Reach (initConfig (getDailyPhrases [] d) t0) c) :
    getDailyPhrases [] d = [] ∧ c.1.finished = false ∧
      (∀ now, handleSubmit now c.1 = c.1) ∧ handleHint c.1 = c.1 ∧
      handleSkip c.1 = (c.1, none) := by
  have h0 : Reach (initConfig [] t0) c := h
  obtain ⟨hph, hfin, hps⟩ := empty_pool_invariant t0 c h0
  have hnone : c.1.dailyPhrases[c.1.currentIndex]? = none := by
    rw [hph]
    simp
  refine ⟨rfl, hfin, ?_, ?_, ?_⟩
  · intro now
    unfold handleSubmit
    rw [hnone]
  · unfold handleHint
    rw [hnone]
  · unfold handleSkip
    rw [hnone]

/-- C7, witness: the initial configuration of an empty-pool session. -/
theorem C7_empty_pool_witness :
    getDailyPhrases [] sampleDate = [] ∧
      (initConfig [] 0).1.finished = false ∧
      (∀ now, handleSubmit now (initConfig [] 0).1 = (initConfig [] 0).1) ∧
      handleHint (initConfig [] 0).1 = (initConfig [] 0).1 ∧
      handleSkip (initConfig [] 0).1 = ((initConfig [] 0).1, none) :=
  C7_empty_pool sampleDate 0 (initConfig [] 0) Relation.ReflTransGen.refl

theorem handleSubmit_index_cases (now : Nat) (s : GameState) :
    (handleSubmit now s).currentIndex = s.currentIndex ∨
      ((handleSubmit now s).currentIndex = s.currentIndex + 1 ∧
        ¬ s.currentIndex = s.dailyPhrases.length - 1 ∧
        s.currentIndex < s.dailyPhrases.length) := by
  cases hl : s.dailyPhrases[s.currentIndex]? with
  | none =>
    have hid : handleSubmit now s = s := by
      unfold handleSubmit
      rw [hl]
    rw [hid]
    exact Or.inl rfl
  | some p =>
    by_cases hm : jsToLower (jsTrim s.guess) = jsToLower p.answer
    · by_cases hlast : s.currentIndex = s.dailyPhrases.length - 1
      · rw [handleSubmit_finish_eq now s p hl hm hlast]
        exact Or.inl rfl
      · rw [handleSubmit_advance_eq now s p hl hm hlast]
        refine Or.inr ⟨rfl, hlast, ?_⟩
        obtain ⟨hlt, -⟩ := List.getElem?_eq_some.mp hl
        exact hlt
    · rw [handleSubmit_wrong_eq now s p hl hm]
      exact Or.inl rfl

theorem handleSubmit_dailyPhrases (now : Nat) (s : GameState) :
    (handleSubmit now s).dailyPhrases = s.dailyPhrases := by
  cases hl : s.dailyPhrases[s.currentIndex]? with
  | none =>
    have hid : handleSubmit now s = s := by
      unfold handleSubmit
      rw [hl]
    rw [hid]
  | some p =>
    by_cases hm : jsToLower (jsTrim s.guess) = jsToLower p.answer
    · by_cases hlast : s.currentIndex = s.dailyPhrases.length - 1
      · rw [handleSubmit_finish_eq now s p hl hm hlast]
      · rw [handleSubmit_advance_eq now s p hl hm hlast]
    · rw [handleSubmit_wrong_eq now s p hl hm]

theorem handleSkip_spec (s : GameState) :
    (handleSkip s).1.dailyPhrases = s.dailyPhrases ∧
      (handleSkip s).1.currentIndex = s.currentIndex ∧
      ∀ q ∈ (handleSkip s).2.toList,
        q.idx = s.currentIndex ∧ s.currentIndex < s.dailyPhrases.length := by
  unfold handleSkip
  cases hl : s.dailyPhrases[s.currentIndex]? with
  | none => simp
  | some p =>
    refine ⟨rfl, rfl, ?_⟩
    intro q hq
    simp only [Option.toList_some, List.mem_singleton] at hq
    subst hq
    refine ⟨rfl, ?_⟩
    obtain ⟨hlt, -⟩ := List.getElem?_eq_some.mp hl
    exact hlt

theorem fireSkip_index_cases (now : Nat) (p : PendingSkip) (s : GameState) :
    (fireSkip now p s).dailyPhrases = s.dailyPhrases ∧
      ((fireSkip now p s).currentIndex = s.currentIndex ∨
        ((fireSkip now p s).currentIndex = p.idx + 1 ∧
          ¬ p.idx = s.dailyPhrases.length - 1)) := by
  unfold fireSkip
  by_cases hl : p.idx = s.dailyPhrases.length - 1
  · rw [if_pos hl]
    exact ⟨rfl, Or.inl rfl⟩
  · rw [if_neg hl]
    exact ⟨rfl, Or.inr ⟨rfl, hl⟩⟩

theorem index_bound_invariant (ph : List Phrase) (t0 : Nat) (c : Config)
    (h : Reach (initConfig ph t0) c) :
    c.1.dailyPhrases = ph ∧ c.1.currentIndex < max ph.length 1 ∧
      ∀ q ∈ c.2, q.idx < ph.length := by
  induction h with
  | refl =>
    refine ⟨rfl, ?_, by simp [initConfig]⟩
    have : 0 < max ph.length 1 := lt_max_of_lt_right Nat.zero_lt_one
    exact this
  | tail hr hstep ih =>
    obtain ⟨e, hs⟩ := hstep
    obtain ⟨hph, hidx, hpend⟩ := ih
    cases hs with
    | setName t s ps h1 => exact ⟨hph, hidx, hpend⟩
    | startGame s ps h1 h2 => exact ⟨hph, hidx, hpend⟩
    | startClock now s ps h1 h2 => exact ⟨hph, hidx, hpend⟩
    | tick now s ps h1 h2 => exact ⟨hph, hidx, hpend⟩
    | setGuess t s ps h1 h2 => exact ⟨hph, hidx, hpend⟩
    | submit now s ps h1 h2 =>
      refine ⟨by rw [handleSubmit_dailyPhrases]; exact hph, ?_, hpend⟩
      rcases handleSubmit_index_cases now s with he | ⟨he, -, hlt⟩
      · rw [he]
        exact hidx
      · rw [he]
        have hph2 : s.dailyPhrases = ph := hph
        rw [hph2] at hlt
        have hmax : max ph.length 1 = ph.length := Nat.max_eq_left (by omega)
        rw [hmax]
        have hidx2 : s.currentIndex < ph.length := hlt
        rcases handleSubmit_index_cases now s with h' | ⟨-, hne, hlt'⟩
        · omega
        · rw [hph2] at hne hlt'
          omega
    | hint s ps h1 h2 =>
      have hph2 : s.dailyPhrases = ph := hph
      unfold handleHint
      cases s.dailyPhrases[s.currentIndex]? <;> exact ⟨hph2, hidx, hpend⟩
    | skip s ps h1 h2 =>
      obtain ⟨hd, hi, hq⟩ := handleSkip_spec s
      refine ⟨by rw [hd]; exact hph, by rw [hi]; exact hidx, ?_⟩
      intro q hmem
      rcases List.mem_append.mp hmem with hin | hin
      · exact hpend q hin
      · obtain ⟨hqi, hqlt⟩ := hq q hin
        have hph2 : s.dailyPhrases = ph := hph
        rw [hqi]
        rw [hph2] at hqlt
        exact hqlt
    | clearWrong s ps => exact ⟨hph, hidx, hpend⟩
    | fire now p s ps1 ps2 =>
      obtain ⟨hd, hcases⟩ := fireSkip_index_cases now p s
      have hph2 : s.dailyPhrases = ph := hph
      have hpmem : p.idx < ph.length := hpend p (by simp)
      refine ⟨by rw [hd]; exact hph, ?_, ?_⟩
      · rcases hcases with he | ⟨he, hne⟩
        · rw [he]
          exact hidx
        · rw [he]
          rw [hph2] at hne
          have hmax : max ph.length 1 = ph.length := Nat.max_eq_left (by omega)
          rw [hmax]
          omega
      · intro q hmem
        refine hpend q ?_
        rcases List.mem_append.mp hmem with hin | hin
        · exact List.mem_append.mpr (Or.inl hin)
        · exact List.mem_append.mpr (Or.inr (List.mem_cons_of_mem p hin))

/-- C10, counterexample: `currentIndex` is not monotone.  Three-phrase
session: skip phrase 0 (the deferred advance captures index 0), then
answer phrases 0 and 1 correctly before the 2 s timer fires —
`currentIndex` is now 2; the timer then fires and writes the captured
index + 1, dropping `currentIndex` from 2 back to 1. -/
theorem C10_index_counterexample :
    Reach (initConfig threePool 0) (c10BeforeFire, [c10Pending]) ∧
      c10BeforeFire.currentIndex = 2 ∧
      Step (.fire 3 c10Pending) (c10BeforeFire, [c10Pending]) (c10AfterFire, []) ∧
      c10AfterFire.currentIndex = 1 := by
  refine ⟨?_, by decide, ?_, by decide⟩
  · exact Relation.ReflTransGen.head ⟨_, Step.setName "P" _ _ rfl⟩
      (Relation.ReflTransGen.head ⟨_, Step.startGame _ _ rfl (by decide)⟩
        (Relation.ReflTransGen.head ⟨_, Step.startClock 0 _ _ rfl rfl⟩
          (Relation.ReflTransGen.head ⟨_, Step.skip _ _ rfl rfl⟩
            (Relation.ReflTransGen.head ⟨_, Step.setGuess "a0" _ _ (by decide) (by decide)⟩
              (Relation.ReflTransGen.head ⟨_, Step.submit 1 _ _ (by decide) (by decide)⟩
                (Relation.ReflTransGen.head ⟨_, Step.setGuess "a1" _ _ (by decide) (by decide)⟩
                  (Relation.ReflTransGen.head ⟨_, Step.submit 2 _ _ (by decide) (by decide)⟩
                    Relation.ReflTransGen.refl)))))))
  · exact Step.fire 3 c10Pending c10BeforeFire [] []

/-- C10, amended: for every reachable configuration of a session over a
non-empty selection, `currentIndex` stays strictly below the number of
phrases (completion is recorded in the `finished` flag, never as an
out-of-range index); and as long as no deferred skip transition is
pending, every single event leaves `currentIndex` unchanged or increments
it by exactly 1 — so it is then monotone in steps of +1.  (With a skip
transition pending the deferred advance can rewrite `currentIndex` to its
captured index + 1, which C10's counterexample shows can be a decrease.) -/
theorem C10_index_bounds_amended :
    (∀ (ph : List Phrase) (t0 : Nat) (c : Config),
      Reach (initConfig ph t0) c → 0 < ph.length →
        c.1.currentIndex < ph.length) ∧
    (∀ (e : Ev) (c c' : Config), Step e c c' → c.2 = [] →
      c'.1.currentIndex = c.1.currentIndex ∨
        c'.1.currentIndex = c.1.currentIndex + 1) := by
  constructor
  · intro ph t0 c h hpos
    obtain ⟨-, hidx, -⟩ := index_bound_invariant ph t0 c h
    have hmax : max ph.length 1 = ph.length := Nat.max_eq_left (by omega)
    rw [hmax] at hidx
    exact hidx
  · intro e c c' hstep hnil
    cases hstep with
    | setName t s ps h1 => exact Or.inl rfl
    | startGame s ps h1 h2 => exact Or.inl rfl
    | startClock now s ps h1 h2 => exact Or.inl rfl
    | tick now s ps h1 h2 => exact Or.inl rfl
    | setGuess t s ps h1 h2 => exact Or.inl rfl
    | submit now s ps h1 h2 =>
      rcases handleSubmit_index_cases now s with he | ⟨he, -, -⟩
      · exact Or.inl he
      · exact Or.inr he
    | hint s ps h1 h2 =>
      unfold handleHint
      cases s.dailyPhrases[s.currentIndex]? <;> exact Or.inl rfl
    | skip s ps h1 h2 => exact Or.inl (handleSkip_spec s).2.1
    | clearWrong s ps => exact Or.inl rfl
    | fire now p s ps1 ps2 =>
      have : ps1 ++ p :: ps2 = [] := hnil
      simp at this

/-- C10, witness: the bound at the initial configuration of a one-phrase
session, and a +1 advance step from a concrete mid-session state. -/
theorem C10_index_bounds_amended_witness :
    (initConfig [onePhrase] 0).1.currentIndex < [onePhrase].length ∧
      ((handleSubmit 10000 hintRun, ([] : List PendingSkip)).1.currentIndex =
          hintRun.currentIndex ∨
        (handleSubmit 10000 hintRun, ([] : List PendingSkip)).1.currentIndex =
          hintRun.currentIndex + 1) :=
  ⟨C10_index_bounds_amended.1 [onePhrase] 0 (initConfig [onePhrase] 0)
      Relation.ReflTransGen.refl (by decide),
    C10_index_bounds_amended.2 (.submit 10000) (hintRun, []) _
      (Step.submit 10000 hintRun [] rfl rfl) rfl⟩

end Jbbly
